import Mathlib

/-!
Verification model of the JASS anytime top-k query processor
(accumulator arrays, heap-driven and block-max query variants, result
enumeration and the accumulator-manager factory).

Machine integers are modelled as `Nat` with explicit reduction modulo
`2 ^ w` where overflow can matter; C++ `throw std::bad_array_new_length`
is modelled as `Except.error ()`; the cooperative `Done` exception is
modelled as a boolean "raised" flag returned next to the new state.

Memory arrays are modelled as total functions `Nat → Nat` together with
the element counts kept by the source objects; uninitialised memory is
whatever the function returns outside the initialised region.
-/

namespace JASS

/-- `query::ACCUMULATOR_TYPE` is `uint16_t`: arithmetic on accumulators is
modulo `2 ^ 16`. -/
def ACC_MOD : Nat := 65536

/-- `query::DOCID_TYPE` is `uint32_t`. -/
def DOCID_MOD : Nat := 4294967296

/-- `query::MAX_DOCUMENTS` (query.h): the compile-time maximum number of
documents, used to size the accumulator arrays. -/
def MAX_DOCUMENTS : Nat := 55000000

/-- `query::MAX_TOP_K` (query.h). -/
def MAX_TOP_K : Nat := 1000

/-- Modelled from the spec: `maths::floor_log2` (maths.h is not under src/);
the spec uses it as `floor(log2 x)`, which on naturals is `Nat.log2`. -/
def floor_log2 (x : Nat) : Nat := Nat.log2 x

/-- Modelled from the spec: the C cast `(size_t)sqrt((double)n)`
(library code, not under src/) truncates the real square root, which on
naturals is `Nat.sqrt`. -/
def size_t_sqrt (n : Nat) : Nat := Nat.sqrt n

/-- The page/block shift chosen by `accumulator_2d::init` and
`accumulator_block_max::init`: `preferred_width` when `≥ 1`, else
`floor_log2(sqrt n)`. -/
def accShift (preferred n : Nat) : Nat :=
  if preferred ≥ 1 then preferred else floor_log2 (size_t_sqrt n)

/-- The page/block width `2 ^ shift` (`width = (size_t)1 << shift`). -/
def accWidth (preferred n : Nat) : Nat := 2 ^ accShift preferred n

/-- The number of dirty flags / blocks, rounded up so the last row is
never missed: `(n + width - 1) / width`. -/
def accRows (preferred n : Nat) : Nat :=
  (n + accWidth preferred n - 1) / accWidth preferred n

/-- The number of accumulators actually allocated (the rectangle):
`width * rows`. -/
def accAlloc (preferred n : Nat) : Nat := accWidth preferred n * accRows preferred n

/-- Extract the success value of an `Except`, with a fallback. -/
def exGetD {α : Type} (e : Except Unit α) (d : α) : α :=
  match e with
  | .ok a => a
  | .error _ => d

/-- `true` iff the `Except` is a success. -/
def exIsOk {α : Type} (e : Except Unit α) : Bool :=
  match e with
  | .ok _ => true
  | .error _ => false

/-!
## accumulator_2d (accumulator_2d.h)

A paged lazy-zeroed accumulator array: one dirty byte per row of
`width = 2 ^ shift` accumulators.  Template parameter
`NUMBER_OF_ACCUMULATORS` appears below as the argument `N`.
-/

structure accumulator_2d where
  dirty_flag : Nat → Bool
  accumulator : Nat → Nat
  width : Nat
  shift : Nat
  number_of_dirty_flags : Nat
  number_of_accumulators_allocated : Nat
  number_of_accumulators : Nat

namespace accumulator_2d

/-- `maximum_number_of_dirty_flags` for template parameter `N`. -/
def max_flags (N : Nat) : Nat := N

/-- `maximum_number_of_accumulators_allocated` for template parameter `N`. -/
def max_alloc (N : Nat) : Nat := N + N / 2

/-- `accumulator_2d::rewind()`: set the first `number_of_dirty_flags`
dirty bytes to nonzero (`0xFF`). -/
def rewind (s : accumulator_2d) : accumulator_2d :=
  { s with dirty_flag := fun f => if f < s.number_of_dirty_flags then true else s.dirty_flag f }

/-- `accumulator_2d::init(number_of_accumulators, preferred_width)`:
choose the page shift (from `preferred_width` if `≥ 1`, else
`floor_log2(sqrt n)`), round the dirty-flag count up, check the
compile-time bounds (throwing `std::bad_array_new_length` = `.error ()`),
and rewind. -/
def init (N : Nat) (s : accumulator_2d) (number_of_accumulators preferred_width : Nat) :
    Except Unit accumulator_2d :=
  if accRows preferred_width number_of_accumulators > max_flags N ∨
     accAlloc preferred_width number_of_accumulators > max_alloc N then .error ()
  else .ok (rewind { s with
      shift := accShift preferred_width number_of_accumulators
      width := accWidth preferred_width number_of_accumulators
      number_of_dirty_flags := accRows preferred_width number_of_accumulators
      number_of_accumulators_allocated := accAlloc preferred_width number_of_accumulators
      number_of_accumulators := number_of_accumulators })

/-- `accumulator_2d::which_dirty_flag(element)` = `element >> shift`. -/
def which_dirty_flag (s : accumulator_2d) (element : Nat) : Nat :=
  element / 2 ^ s.shift

/-- `accumulator_2d::get_value(which)`: 0 when the page is dirty, else the
stored value. -/
def get_value (s : accumulator_2d) (which : Nat) : Nat :=
  if s.dirty_flag (s.which_dirty_flag which) then 0 else s.accumulator which

/-- The state effect of `accumulator_2d::operator[](which)`: if the page is
dirty, zero the whole row and clear the flag. -/
def touch (s : accumulator_2d) (which : Nat) : accumulator_2d :=
  let flag := s.which_dirty_flag which
  if s.dirty_flag flag then
    { s with
      accumulator := fun i => if flag * s.width ≤ i ∧ i < flag * s.width + s.width then 0
                              else s.accumulator i
      dirty_flag := fun f => if f = flag then false else s.dirty_flag f }
  else s

/-- Raw store through the reference returned by `operator[]`; values wrap
at the element width `M`. -/
def store (M : Nat) (s : accumulator_2d) (which v : Nat) : accumulator_2d :=
  { s with accumulator := fun i => if i = which then v % M else s.accumulator i }

/-- `instance[which] = v`: `operator[]` (lazy row zeroing) followed by the
store through the reference. -/
def set (M : Nat) (s : accumulator_2d) (which v : Nat) : accumulator_2d :=
  store M (touch s which) which v

end accumulator_2d

/-!
## accumulator_simple (accumulator_simple.h)

One flat array, zeroed on every rewind.
-/

structure accumulator_simple where
  accumulator : Nat → Nat
  number_of_accumulators : Nat

namespace accumulator_simple

/-- `accumulator_simple::rewind()`: memset the first
`number_of_accumulators` elements to zero. -/
def rewind (s : accumulator_simple) : accumulator_simple :=
  { s with accumulator := fun i => if i < s.number_of_accumulators then 0 else s.accumulator i }

/-- `accumulator_simple::init(n, preferred_width)` (the width is ignored). -/
def init (s : accumulator_simple) (number_of_accumulators _preferred_width : Nat) :
    accumulator_simple :=
  rewind { s with number_of_accumulators := number_of_accumulators }

/-- `accumulator_simple::get_value(which)`: a plain read. -/
def get_value (s : accumulator_simple) (which : Nat) : Nat :=
  s.accumulator which

/-- `instance[which] = v` through `operator[]` (a plain reference). -/
def set (M : Nat) (s : accumulator_simple) (which v : Nat) : accumulator_simple :=
  { s with accumulator := fun i => if i = which then v % M else s.accumulator i }

end accumulator_simple

/-!
## accumulator_block_max (accumulator_block_max.h)

A flat array rounded up to whole blocks, with one running maximum per
block.
-/

structure accumulator_block_max where
  block_max : Nat → Nat
  accumulator : Nat → Nat
  shift : Nat
  width : Nat
  number_of_blocks : Nat
  number_of_accumulators_allocated : Nat
  number_of_accumulators : Nat

namespace accumulator_block_max

/-- `maximum_number_of_blocks` for template parameter `N`. -/
def max_blocks (N : Nat) : Nat := N

/-- `maximum_number_of_accumulators_allocated` for template parameter `N`. -/
def max_alloc (N : Nat) : Nat := N + N / 2

/-- `accumulator_block_max::rewind()`: memset the first `n` accumulators
and all block maxima to zero. -/
def rewind (s : accumulator_block_max) : accumulator_block_max :=
  { s with
    accumulator := fun i => if i < s.number_of_accumulators then 0 else s.accumulator i
    block_max := fun b => if b < s.number_of_blocks then 0 else s.block_max b }

/-- `accumulator_block_max::init(n, preferred_width)`: size the blocks,
check the compile-time bounds, rewind, then zero the slots between `n`
and the allocated (rounded-up) size once and for all. -/
def init (N : Nat) (s : accumulator_block_max) (number_of_accumulators preferred_width : Nat) :
    Except Unit accumulator_block_max :=
  if accRows preferred_width number_of_accumulators > max_blocks N ∨
     accAlloc preferred_width number_of_accumulators > max_alloc N then .error ()
  else
    let s1 := rewind { s with
      shift := accShift preferred_width number_of_accumulators
      width := accWidth preferred_width number_of_accumulators
      number_of_blocks := accRows preferred_width number_of_accumulators
      number_of_accumulators_allocated := accAlloc preferred_width number_of_accumulators
      number_of_accumulators := number_of_accumulators }
    .ok { s1 with
      accumulator := fun i =>
        if number_of_accumulators ≤ i ∧ i < accAlloc preferred_width number_of_accumulators
        then 0 else s1.accumulator i }

/-- `accumulator_block_max::which_block(element)` = `element >> shift`. -/
def which_block (s : accumulator_block_max) (element : Nat) : Nat :=
  element / 2 ^ s.shift

/-- `accumulator_block_max::add(which, value)`: bump the accumulator
(wrapping at the element width `M`) and raise the enclosing block maximum
if the new value exceeds it. -/
def add (M : Nat) (s : accumulator_block_max) (which value : Nat) : accumulator_block_max :=
  let a := (s.accumulator which + value % M) % M
  let s1 := { s with accumulator := fun i => if i = which then a else s.accumulator i }
  if a > s.block_max (s.which_block which) then
    { s1 with block_max := fun b => if b = s.which_block which then a else s.block_max b }
  else s1

/-- `operator[]` is a plain reference into the flat array; a read through
it. -/
def get (s : accumulator_block_max) (which : Nat) : Nat :=
  s.accumulator which

/-- `instance[which] = v` through `operator[]` (a plain reference). -/
def set (M : Nat) (s : accumulator_block_max) (which v : Nat) : accumulator_block_max :=
  { s with accumulator := fun i => if i = which then v % M else s.accumulator i }

end accumulator_block_max

/-!
## Pointer ordering

The heap and the final sort order accumulator pointers by value and then
by address (`query::add_rsv_compare`, `query::sort_rsv_compare`,
`pointer_box`).  All pointers point into one contiguous accumulator
array, so address order coincides with index order; a pointer is
modelled as its accumulator index.
-/

/-- `add_rsv_compare` / `pointer_box` strict order: value ascending, then
address (= index) ascending.  `cmp(a, b) < 0` in the source. -/
def ptrLT (acc : Nat → Nat) (a b : Nat) : Bool :=
  Nat.blt (acc a) (acc b) || (Nat.beq (acc a) (acc b) && Nat.blt a b)

/-- The reflexive closure of `ptrLT`: the total order used for the final
top-k sort (ascending; results are then read back to front). -/
def ptrLE (acc : Nat → Nat) (a b : Nat) : Bool :=
  Nat.blt (acc a) (acc b) || (Nat.beq (acc a) (acc b) && Nat.ble a b)

/-!
## The top-k heap (modelled from the spec)

heap.h is not under src/.  The spec (§4.2) describes a fixed-capacity
array min-heap over `accumulator_pointers[0..k)` ordered by
`add_rsv_compare`: `make_heap` heapifies, `push_back(ref)` replaces the
current minimum with `ref` when `cmp(min, ref) < 0` and re-sifts,
`promote` re-sifts after an in-place increase.  `add_rsv` observes the
heap only through slot 0 and through the set of stored pointers, and
after every heap operation slot 0 holds the (unique, because addresses
are distinct) minimum by `add_rsv_compare` of the stored pointers under
the current accumulator values.  The model therefore keeps the stored
pointers as a list whose head is slot 0.
-/

/-- The minimum by `ptrLT` of `b` and a list (a left fold, as a sift
leaves the least element at the root). -/
def minByPtr (acc : Nat → Nat) : Nat → List Nat → Nat
  | b, [] => b
  | b, x :: xs => minByPtr acc (if ptrLT acc x b then x else b) xs

/-- Modelled from the spec: re-establish the heap shape — the least
element by `add_rsv_compare` moves to slot 0 (the list head), the rest
keep no further observable order.  Used for `make_heap` and after a
sift. -/
def reMin (acc : Nat → Nat) : List Nat → List Nat
  | [] => []
  | x :: xs =>
    let m := minByPtr acc x xs
    m :: (x :: xs).erase m

/-- Modelled from the spec: `heap::push_back(ref)` — replace the current
minimum (slot 0, the head) with `ref` if `cmp(min, ref) < 0`, then
re-sift. -/
def heapPushBack (acc : Nat → Nat) (l : List Nat) (ref : Nat) : List Nat :=
  match l with
  | [] => []
  | root :: rest => if ptrLT acc root ref then reMin acc (ref :: rest) else root :: rest

/-!
## Sorting for result enumeration (modelled from the spec)

top_k_qsort.h and pointer_box.h are not under src/.  The sort used by
`query_heap::sort` and `query_block_max::sort` orders the filled slice
of `accumulator_pointers` ascending by pointer-box order (value, then
address); `get_first`/`get_next` then walk the array from the back
(`accumulator_pointers[top_k - next_result_location - 1]`), which both
in-src unit tests (`query_heap::unittest`, `run_export_trec::unittest`)
pin to a descending enumeration.  Because the order is total and the
addresses distinct, any correct sort yields the same sequence; the model
uses insertion sort. -/

/-- Insert into a sorted list. -/
def isortInsert (le : Nat → Nat → Bool) (x : Nat) : List Nat → List Nat
  | [] => [x]
  | y :: ys => if le x y then x :: y :: ys else y :: isortInsert le x ys

/-- Insertion sort by a boolean total order. -/
def isortBy (le : Nat → Nat → Bool) : List Nat → List Nat
  | [] => []
  | x :: xs => isortInsert le x (isortBy le xs)

/-- Modelled from the spec: d1 decoding — the in-place prefix sum over
`DOCID_TYPE` performed by `simd::cumulative_sum_256` (simd.h is not
under src/), producing ascending document ids from first differences. -/
def d1cumsum : Nat → List Nat → List Nat
  | _, [] => []
  | sum, d :: ds =>
    let s := (sum + d) % DOCID_MOD
    s :: d1cumsum s ds

/-!
## query_heap (query_heap.h), instantiated at accumulator_2d

State of a `query_heap<accumulator_2d<uint16_t, MAX_DOCUMENTS>>` (the
`2d_heap` strategy).  `filled` is the filled slice
`accumulator_pointers[needed_for_top_k .. top_k)`, head = slot
`needed_for_top_k` (slot 0 once the heap is full: the filling loop
stores at `--needed_for_top_k`).
-/

structure query_heap where
  accumulators : accumulator_2d
  top_k : Nat
  needed_for_top_k : Nat
  filled : List Nat
  top_k_lower_bound : Nat
  impact : Nat

namespace query_heap

/-- `query_heap::rewind(smallest, top_k_lower_bound, largest)`: clear the
result slice, rewind the accumulators, reset `needed_for_top_k` and
install the lower bound. -/
def rewind (s : query_heap) (top_k_lower_bound : Nat) : query_heap :=
  { s with
    filled := []
    accumulators := s.accumulators.rewind
    needed_for_top_k := s.top_k
    top_k_lower_bound := top_k_lower_bound
    impact := 0 }

/-- `query_heap::init(primary_keys, documents, top_k, width)`:
`query::init` sizing followed by `accumulators.init(documents, width)`
(which can throw) and a rewind with the default lower bound 1. -/
def init (s : query_heap) (documents top_k width : Nat) : Except Unit query_heap :=
  match accumulator_2d.init MAX_DOCUMENTS s.accumulators documents width with
  | .error e => .error e
  | .ok acc => .ok (rewind { s with top_k := top_k, accumulators := acc } 1)

/-- `query_heap::add_rsv(document_id, score)` (query_heap.h lines
177-231).  Returns the new state and whether `throw Done()` was raised.
The subtraction `*which.pointer() - score` happens after integral
promotion, hence over `Int`. -/
def add_rsv (s0 : query_heap) (document_id score : Nat) : query_heap × Bool :=
  let acc1 := s0.accumulators.touch document_id
  let newv := (acc1.accumulator document_id + score % ACC_MOD) % ACC_MOD
  let s := { s0 with accumulators := acc1.store ACC_MOD document_id newv }
  let oldv : Int := (newv : Int) - ((score % ACC_MOD : Nat) : Int)
  if newv < s.top_k_lower_bound then (s, false)
  else if 0 < s.needed_for_top_k then
    if oldv < (s.top_k_lower_bound : Int) then
      let s1 := { s with
        filled := document_id :: s.filled
        needed_for_top_k := s.needed_for_top_k - 1 }
      if s1.needed_for_top_k = 0 then
        let s2 := { s1 with filled := reMin s1.accumulators.accumulator s1.filled }
        if s2.top_k_lower_bound ≠ 1 then (s2, true)
        else ({ s2 with
          top_k_lower_bound := s2.accumulators.accumulator (s2.filled.headD 0) }, false)
      else (s1, false)
    else (s, false)
  else if newv = s.top_k_lower_bound then
    if document_id < s.filled.headD 0 then (s, false)
    else
      let s1 := { s with filled := heapPushBack s.accumulators.accumulator s.filled document_id }
      ({ s1 with
        top_k_lower_bound := s1.accumulators.accumulator (s1.filled.headD 0) }, false)
  else
    if oldv < (s.top_k_lower_bound : Int) ∨
       (oldv = (s.top_k_lower_bound : Int) ∧ document_id < s.filled.headD 0) then
      let s1 := { s with filled := heapPushBack s.accumulators.accumulator s.filled document_id }
      ({ s1 with
        top_k_lower_bound := s1.accumulators.accumulator (s1.filled.headD 0) }, false)
    else
      let s1 := { s with filled := reMin s.accumulators.accumulator s.filled }
      ({ s1 with
        top_k_lower_bound := s1.accumulators.accumulator (s1.filled.headD 0) }, false)

/-- The posting loop of `query_heap::decode_with_writer`: process the
already d1-decoded document ids one at a time with the current impact;
`Done` is caught and breaks out of the loop, abandoning the remainder of
the segment, and is not propagated. -/
def processPostings (s : query_heap) : List Nat → query_heap
  | [] => s
  | d :: rest =>
    let r := add_rsv s d s.impact
    if r.2 then r.1 else processPostings r.1 rest

/-- `query::decode_and_process(impact, ...)` for one impact segment:
`set_impact`, `init_add_rsv` (cumulative sum restarts at 0), decode
(modelled as the delta list), d1-decode, process. -/
def decode_and_process (s : query_heap) (impact : Nat) (deltas : List Nat) : query_heap :=
  processPostings { s with impact := impact } (d1cumsum 0 deltas)

/-- A whole run: one `decode_and_process` per impact segment.  (The
segment-iterating driver is not under src/; `decode_with_writer`
swallows `Done`, so each segment call returns normally and the next
segment is processed.) -/
def runSegments (s : query_heap) : List (Nat × List Nat) → query_heap
  | [] => s
  | (impact, deltas) :: rest => runSegments (decode_and_process s impact deltas) rest

/-- The result enumeration of `sort()` + `get_first()`/`get_next()`:
sort the filled slice ascending by pointer-box order, read it from the
back, and emit `(document_id = get_index(ref), rsv = get_value(id))`
pairs. -/
def enumerate (s : query_heap) : List (Nat × Nat) :=
  ((isortBy (ptrLE s.accumulators.accumulator) s.filled).reverse).map
    (fun i => (i, s.accumulators.get_value i))

end query_heap

/-!
## query_block_max (query_block_max.h)

`query_block_max` over `accumulator_block_max<uint16_t, MAX_DOCUMENTS>`
(the `blockmax` strategy): `add_rsv` only feeds the accumulators; the
top-k is collected at `sort()` by scanning block maxima.
-/

structure query_block_max where
  accumulators : accumulator_block_max
  top_k : Nat
  needed_for_top_k : Nat
  filled : List Nat
  impact : Nat

namespace query_block_max

/-- `query_block_max::rewind`. -/
def rewind (s : query_block_max) : query_block_max :=
  { s with
    filled := []
    accumulators := s.accumulators.rewind
    needed_for_top_k := s.top_k
    impact := 0 }

/-- `query_block_max::init`. -/
def init (s : query_block_max) (documents top_k width : Nat) : Except Unit query_block_max :=
  match accumulator_block_max.init MAX_DOCUMENTS s.accumulators documents width with
  | .error e => .error e
  | .ok acc => .ok (rewind { s with top_k := top_k, accumulators := acc })

/-- `query_block_max::add_rsv(document_id, score)` =
`accumulators.add(document_id, score)`. -/
def add_rsv (s : query_block_max) (document_id score : Nat) : query_block_max :=
  { s with accumulators := s.accumulators.add ACC_MOD document_id score }

/-- One accumulator inspected by the collection scan of
`query_block_max::sort`: state is `(needed_for_top_k, filled slice,
bottom_of_heap)`. -/
def scanCell (acc : Nat → Nat) (st : Nat × List Nat × Nat) (i : Nat) : Nat × List Nat × Nat :=
  let needed := st.1
  let filled := st.2.1
  let bottom := st.2.2
  if acc i > bottom then
    if 0 < needed then
      let filled1 := i :: filled
      let needed1 := needed - 1
      if needed1 = 0 then
        let filled2 := reMin acc filled1
        (0, filled2, acc (filled2.headD 0))
      else (needed1, filled1, bottom)
    else
      let filled1 := heapPushBack acc filled i
      (0, filled1, acc (filled1.headD 0))
  else st

/-- The collection phase of `query_block_max::sort` (lines 155-220): scan
the block maxima with `bottom_of_heap` starting at 0; scan the `width`
accumulators of any block whose maximum exceeds the current bottom. -/
def collect (s : query_block_max) : query_block_max :=
  let acc := s.accumulators.accumulator
  let w := s.accumulators.width
  let res := (List.range s.accumulators.number_of_blocks).foldl
    (fun st b =>
      if s.accumulators.block_max b > st.2.2 then
        ((List.range w).map (fun j => b * w + j)).foldl (scanCell acc) st
      else st)
    (s.needed_for_top_k, s.filled, 0)
  { s with needed_for_top_k := res.1, filled := res.2.1 }

/-- `sort()` (collect, then the final quicksort) followed by
`get_first()`/`get_next()` enumeration; the rsv is read through
`operator[]` (a raw read). -/
def enumerate (s0 : query_block_max) : List (Nat × Nat) :=
  let s := collect s0
  ((isortBy (ptrLE s.accumulators.accumulator) s.filled).reverse).map
    (fun i => (i, s.accumulators.get i))

end query_block_max

/-!
## The accumulator-manager factory (JASS_anytime_accumulator_manager.h)
-/

/-- The closed set of processor variants the factory can return. -/
inductive accumulator_manager where
  | heap2d : accumulator_manager
  | heap1d : accumulator_manager
  | simple : accumulator_manager
  | blockmax : accumulator_manager
deriving DecidableEq

/-- `JASS_anytime_accumulator_manager::get_by_name(name, codex)`: the
chain of string comparisons, with the `2d_heap` variant as the fallback
for unknown names. -/
def get_by_name (name : String) : accumulator_manager :=
  if name = "2d_heap" then .heap2d
  else if name = "1d_heap" then .heap1d
  else if name = "simple" then .simple
  else if name = "blockmax" then .blockmax
  else .heap2d

/-!
## Concrete states and runs pinned by the in-src unit tests

Uninitialised memory is modelled as the constant 99 / flag pattern
`false`, so that any read the source would make before initialisation
shows up in the computed results.
-/

/-- An uninitialised `accumulator_2d` (constructor defaults for the
scalar fields, junk memory). -/
def junk2d : accumulator_2d :=
  { dirty_flag := fun _ => false
    accumulator := fun _ => 99
    width := 1
    shift := 1
    number_of_dirty_flags := 0
    number_of_accumulators_allocated := 0
    number_of_accumulators := 0 }

/-- An uninitialised `query_heap` before `init`. -/
def junkHeap : query_heap :=
  { accumulators := junk2d, top_k := 0, needed_for_top_k := 0, filled := []
    top_k_lower_bound := 0, impact := 1 }

/-- A `query_heap` after `init(keys, documents, top_k)` with the default
2-d page width 7. -/
def mkHeap (documents top_k : Nat) : query_heap :=
  exGetD (query_heap.init junkHeap documents top_k 7) junkHeap

/-- The `query_heap::unittest` scenario: `init(keys, 1024, 2)` followed
by `add_rsv` on (2,10), (3,20), (2,2), (1,1), (1,14). -/
def heapUnittest : query_heap :=
  let q := mkHeap 1024 2
  let q := (q.add_rsv 2 10).1
  let q := (q.add_rsv 3 20).1
  let q := (q.add_rsv 2 2).1
  let q := (q.add_rsv 1 1).1
  (q.add_rsv 1 14).1

/-- An uninitialised `accumulator_block_max`. -/
def junkbm : accumulator_block_max :=
  { block_max := fun _ => 99
    accumulator := fun _ => 99
    shift := 1
    width := 1
    number_of_blocks := 0
    number_of_accumulators_allocated := 0
    number_of_accumulators := 0 }

/-- An uninitialised `query_block_max` before `init`. -/
def junkQbm : query_block_max :=
  { accumulators := junkbm, top_k := 0, needed_for_top_k := 0, filled := [], impact := 1 }

/-- A `query_block_max` after `init(keys, documents, top_k)`. -/
def mkQbm (documents top_k : Nat) : query_block_max :=
  exGetD (query_block_max.init junkQbm documents top_k 7) junkQbm

/-- The `query_block_max::unittest` scenario, identical input to
`heapUnittest`. -/
def qbmUnittest : query_block_max :=
  let q := mkQbm 1024 2
  let q := q.add_rsv 2 10
  let q := q.add_rsv 3 20
  let q := q.add_rsv 2 2
  let q := q.add_rsv 1 1
  q.add_rsv 1 14

/-- The `run_export_trec::unittest` scenario: `init(keys, 10, 10)` and
one segment of impact 1 whose deltas `[1,1,1,1,1,1]` d1-decode to the
document ids 1..6 — six documents that all finish with rsv 1. -/
def trecRun : query_heap :=
  (mkHeap 10 10).decode_and_process 1 [1,1,1,1,1,1]

/-- Oracle run for the early-exit comparison: D = 10, k = 1, rewind with
`top_k_lower_bound = 3`, one segment of impact 3 on documents 2 and 5
(deltas `[2,3]`).  Both documents finish with rsv 3, so 3 is the k-th
(largest) achievable final score. -/
def oracleRun : query_heap :=
  (query_heap.rewind (mkHeap 10 1) 3).decode_and_process 3 [2,3]

/-- The same input processed with the no-early-exit bound
`top_k_lower_bound = 1`. -/
def fullRun : query_heap :=
  (query_heap.rewind (mkHeap 10 1) 1).decode_and_process 3 [2,3]

/-- A heap-query state mid-segment (impact 3 installed), one result away
from filling the heap, under the oracle lower bound 3. -/
def c3s : query_heap :=
  { query_heap.rewind (mkHeap 10 1) 3 with impact := 3 }

/-!
## Auxiliary runs used by the accumulator unit-test claims
-/

/-- The element modulus of a `size_t` accumulator (the unit tests
instantiate the accumulator templates with `ELEMENT = size_t`). -/
def M64 : Nat := 18446744073709551616

/-- The write loop of `accumulator_2d::unittest_example`:
`instance[position] = position` over a list of positions. -/
def writeAll2d (M : Nat) (s : accumulator_2d) (l : List Nat) : accumulator_2d :=
  l.foldl (fun t i => t.set M i i) s

/-- The write loop of `accumulator_simple::unittest_example`. -/
def writeAllSimple (M : Nat) (s : accumulator_simple) (l : List Nat) : accumulator_simple :=
  l.foldl (fun t i => t.set M i i) s

/-- The write loop of `accumulator_block_max::unittest_example`. -/
def writeAllBm (M : Nat) (s : accumulator_block_max) (l : List Nat) : accumulator_block_max :=
  l.foldl (fun t i => t.set M i i) s

/-!
## Block-max invariant (claim C9)
-/

/-- The largest accumulator value inside block `b` (cells
`b*width .. b*width + width - 1`). -/
def maxCells (acc : Nat → Nat) (w b : Nat) : Nat :=
  ((List.range w).map (fun j => b * w + j)).foldr (fun i m => max (acc i) m) 0

/-- The block-max invariant `query_block_max::sort` relies on: every
block maximum equals the largest accumulator value inside its block. -/
def bmInvariant (s : accumulator_block_max) : Prop :=
  ∀ b ∈ List.range s.number_of_blocks, s.block_max b = maxCells s.accumulator s.width b

/-- A sequence of `accumulator_block_max::add` calls. -/
def foldAdds (M : Nat) (s : accumulator_block_max) (ops : List (Nat × Nat)) :
    accumulator_block_max :=
  ops.foldl (fun t p => t.add M p.1 p.2) s

/-- `true` when no `add` in the sequence overflows the element width
(each addition stays below `M`, so scores only grow). -/
def noOv (M : Nat) (s : accumulator_block_max) : List (Nat × Nat) → Bool
  | [] => true
  | p :: rest =>
    Nat.blt (s.accumulator p.1 + p.2 % M) M && noOv M (s.add M p.1 p.2) rest

/-- A clean accumulator array (no dirty pages) with every value 5. -/
def c1acc : accumulator_2d :=
  { dirty_flag := fun _ => false, accumulator := fun _ => 5, width := 4, shift := 2
    number_of_dirty_flags := 3, number_of_accumulators_allocated := 12
    number_of_accumulators := 10 }

/-- A full two-entry result heap over `c1acc`: documents 2 and 7 tie. -/
def c1state : query_heap :=
  { accumulators := c1acc, top_k := 2, needed_for_top_k := 0, filled := [2, 7]
    top_k_lower_bound := 5, impact := 0 }

/-!
## Arithmetic helpers for the sizing computations
-/

theorem size_t_sqrt_eq {n q : Nat} (h1 : q * q ≤ n) (h2 : n < (q + 1) * (q + 1)) :
    size_t_sqrt n = q := by
  have hlt : Nat.sqrt n < q + 1 := Nat.sqrt_lt.mpr h2
  have hge : q ≤ Nat.sqrt n := Nat.le_sqrt.mpr h1
  unfold size_t_sqrt
  omega

theorem floor_log2_eq {n k : Nat} (h0 : n ≠ 0) (h1 : 2 ^ k ≤ n) (h2 : n < 2 ^ (k + 1)) :
    floor_log2 n = k := by
  have ha : Nat.log2 n < k + 1 := (Nat.log2_lt h0).mpr h2
  have hb : ¬ Nat.log2 n < k := fun h => absurd ((Nat.log2_lt h0).mp h) (Nat.not_lt.mpr h1)
  unfold floor_log2
  omega

theorem accShift_default_eq {n q k : Nat} (h1 : q * q ≤ n) (h2 : n < (q + 1) * (q + 1))
    (h0 : q ≠ 0) (h3 : 2 ^ k ≤ q) (h4 : q < 2 ^ (k + 1)) : accShift 0 n = k := by
  unfold accShift
  rw [if_neg (by norm_num), size_t_sqrt_eq h1 h2, floor_log2_eq h0 h3 h4]

theorem shift65 : accShift 0 65 = 3 :=
  accShift_default_eq (q := 8) (by norm_num) (by norm_num) (by norm_num) (by norm_num)
    (by norm_num)

theorem shift63 : accShift 0 63 = 2 :=
  accShift_default_eq (q := 7) (by norm_num) (by norm_num) (by norm_num) (by norm_num)
    (by norm_num)

theorem shift1 : accShift 0 1 = 0 :=
  accShift_default_eq (q := 1) (by norm_num) (by norm_num) (by norm_num) (by norm_num)
    (by norm_num)

theorem shift200M : accShift 0 200000000 = 13 :=
  accShift_default_eq (q := 14142) (by norm_num) (by norm_num) (by norm_num) (by norm_num)
    (by norm_num)

/-!
## Claim C6
-/

/-- Claim C6: `accumulator_2d::init` with the default (0) preferred width
chooses page shift `floor(log2(sqrt n))`: with `n = 65` the page width is
8 and there are 9 dirty flags; with `n = 63`, width 4 and 16 flags; with
`n = 1`, width 1 and 1 flag (the `accumulator_2d::unittest` instances). -/
theorem claim_C6 :
    exIsOk (accumulator_2d.init 65 junk2d 65 0) = true
  ∧ (exGetD (accumulator_2d.init 65 junk2d 65 0) junk2d).width = 8
  ∧ (exGetD (accumulator_2d.init 65 junk2d 65 0) junk2d).number_of_dirty_flags = 9
  ∧ exIsOk (accumulator_2d.init 63 junk2d 63 0) = true
  ∧ (exGetD (accumulator_2d.init 63 junk2d 63 0) junk2d).width = 4
  ∧ (exGetD (accumulator_2d.init 63 junk2d 63 0) junk2d).number_of_dirty_flags = 16
  ∧ exIsOk (accumulator_2d.init 1 junk2d 1 0) = true
  ∧ (exGetD (accumulator_2d.init 1 junk2d 1 0) junk2d).width = 1
  ∧ (exGetD (accumulator_2d.init 1 junk2d 1 0) junk2d).number_of_dirty_flags = 1 := by
  have w65 : accWidth 0 65 = 8 := by rw [accWidth, shift65]; norm_num
  have w63 : accWidth 0 63 = 4 := by rw [accWidth, shift63]; norm_num
  have w1 : accWidth 0 1 = 1 := by rw [accWidth, shift1]; norm_num
  have r65 : accRows 0 65 = 9 := by rw [accRows, w65]
  have r63 : accRows 0 63 = 16 := by rw [accRows, w63]
  have r1 : accRows 0 1 = 1 := by rw [accRows, w1]
  refine ⟨?_, ?_, ?_, ?_, ?_, ?_, ?_, ?_, ?_⟩ <;>
    simp [accumulator_2d.init, accAlloc, w65, w63, w1, r65, r63, r1,
      accumulator_2d.max_flags, accumulator_2d.max_alloc, exIsOk, exGetD,
      accumulator_2d.rewind]

/-!
## Claim C2
-/

/-- Claim C2, counterexample: sizing the 2-d accumulators for
`D = 200_000_000` documents raises the sizing-overflow error
(`std::bad_array_new_length`): the compile-time bound is
`MAX_DOCUMENTS = 55_000_000` and the rounded-up allocation
`8192 * 24415 = 200_007_680` exceeds the reserved
`MAX_DOCUMENTS + MAX_DOCUMENTS / 2 = 82_500_000` slots. -/
theorem claim_C2_counterexample :
    exIsOk (accumulator_2d.init MAX_DOCUMENTS junk2d 200000000 0) = false := by
  have w : accWidth 0 200000000 = 8192 := by rw [accWidth, shift200M]; norm_num
  have r : accRows 0 200000000 = 24415 := by rw [accRows, w]
  rw [accumulator_2d.init, if_pos]
  · rfl
  · right
    rw [accAlloc, w, r]
    norm_num [accumulator_2d.max_alloc, MAX_DOCUMENTS]

/-- Claim C2 (amended): `init` accepts every document count `D` up to
`MAX_DOCUMENTS = 55_000_000` (not 200_000_000): with the default page
width the sizing always fits the compile-time arrays and
`std::bad_array_new_length` is not raised. -/
theorem claim_C2 (s : accumulator_2d) (D : Nat) (hD : D ≤ MAX_DOCUMENTS) :
    exIsOk (accumulator_2d.init MAX_DOCUMENTS s D 0) = true := by
  rw [accumulator_2d.init, if_neg]
  · rfl
  push_neg
  set w := accWidth 0 D with hw
  have hw1 : 0 < w := Nat.pos_pow_of_pos _ (by norm_num)
  rcases Nat.eq_zero_or_pos D with hD0 | hD1
  · subst hD0
    have hr : accRows 0 0 = 0 := by
      rw [accRows, ← hw]
      have : (0 + w - 1) / w = 0 := Nat.div_eq_of_lt (by omega)
      omega
    constructor
    · rw [hr]; norm_num [accumulator_2d.max_flags]
    · rw [accAlloc, ← hw, hr]; norm_num [accumulator_2d.max_alloc]
  · have hsq1 : 1 ≤ size_t_sqrt D := by
      unfold size_t_sqrt
      have := Nat.le_sqrt.mpr (show 1 * 1 ≤ D by omega)
      omega
    have hwle : w ≤ size_t_sqrt D := by
      rw [hw, accWidth, accShift, if_neg (by norm_num)]
      exact Nat.log2_self_le (by omega)
    have hsq2 : size_t_sqrt D ≤ 7416 := by
      have h1 : size_t_sqrt D ≤ size_t_sqrt MAX_DOCUMENTS := Nat.sqrt_le_sqrt hD
      have h2 : size_t_sqrt MAX_DOCUMENTS = 7416 := by
        apply size_t_sqrt_eq <;> norm_num [MAX_DOCUMENTS]
      omega
    have hflags : accRows 0 D ≤ D := by
      rw [accRows, ← hw]
      have h1 : D + w - 1 ≤ D * w := by
        have h2 : D + w ≤ D * w + 1 := by
          zify [hD1, hw1]
          nlinarith [mul_le_mul (le_refl (D : ℤ)) (show (1 : ℤ) ≤ w by exact_mod_cast hw1)
            (by norm_num) (by positivity)]
        omega
      calc (D + w - 1) / w ≤ D * w / w := Nat.div_le_div_right h1
        _ = D := by rw [Nat.mul_comm]; exact Nat.mul_div_cancel_left D hw1
    have halloc : accAlloc 0 D ≤ D + w - 1 := by
      rw [accAlloc, ← hw, accRows, ← hw]
      exact Nat.mul_div_le (D + w - 1) w
    constructor
    · have hmax : accumulator_2d.max_flags MAX_DOCUMENTS = 55000000 := rfl
      rw [hmax]
      have : D ≤ 55000000 := hD
      omega
    · have hmax : accumulator_2d.max_alloc MAX_DOCUMENTS = 82500000 := rfl
      rw [hmax]
      have : D ≤ 55000000 := hD
      omega

/-- Claim C2 witness: the amended bound applied at `D = 1024`. -/
theorem claim_C2_witness :
    1024 ≤ MAX_DOCUMENTS
  ∧ exIsOk (accumulator_2d.init MAX_DOCUMENTS junk2d 1024 0) = true :=
  ⟨by norm_num [MAX_DOCUMENTS], claim_C2 junk2d 1024 (by norm_num [MAX_DOCUMENTS])⟩

/-!
## Claim C5
-/

set_option maxRecDepth 100000 in
/-- Claim C5: with `D = 1024` and `k = 2`, adding
(2,10), (3,20), (2,2), (1,1), (1,14) and enumerating yields exactly
`<3,20><1,15>` for both the `2d_heap` and the `blockmax` variants, and
the two enumerations are identical (the `query_heap::unittest` and
`query_block_max::unittest` scenarios). -/
theorem claim_C5 :
    heapUnittest.enumerate = [(3, 20), (1, 15)]
  ∧ qbmUnittest.enumerate = [(3, 20), (1, 15)]
  ∧ heapUnittest.enumerate = qbmUnittest.enumerate := by decide

/-!
## Claim C10
-/

/-- Claim C10: for every strategy name other than the four recognised
ones, `get_by_name` does not fail — it falls back to the `2d_heap`
variant, the same variant it returns for the name `2d_heap`. -/
theorem claim_C10 (name : String) (h1 : name ≠ "2d_heap") (h2 : name ≠ "1d_heap")
    (h3 : name ≠ "simple") (h4 : name ≠ "blockmax") :
    get_by_name name = accumulator_manager.heap2d
  ∧ get_by_name name = get_by_name "2d_heap" := by
  simp [get_by_name, h1, h2, h3, h4]

/-- Claim C10 witness: the fallback at the unrecognised name
`"anything_else"`. -/
theorem claim_C10_witness :
    get_by_name "anything_else" = accumulator_manager.heap2d
  ∧ get_by_name "anything_else" = get_by_name "2d_heap" :=
  claim_C10 "anything_else" (by decide) (by decide) (by decide) (by decide)

/-!
## Claim C1, counterexample part
-/

set_option maxRecDepth 100000 in
/-- Claim C1, counterexample: in the `run_export_trec::unittest` scenario
(documents 1..6 all finish with rsv 1) the enumeration is
6, 5, 4, 3, 2, 1 — the first two results have equal rsv and the earlier
one has the LARGER document id, refuting "the smaller document id ranks
higher". -/
theorem claim_C1_counterexample :
    trecRun.enumerate = [(6, 1), (5, 1), (4, 1), (3, 1), (2, 1), (1, 1)]
  ∧ (trecRun.enumerate.getD 0 (0, 0)).2 = (trecRun.enumerate.getD 1 (0, 0)).2
  ∧ (trecRun.enumerate.getD 1 (0, 0)).1 < (trecRun.enumerate.getD 0 (0, 0)).1 := by
  decide

theorem div_eq_iff_range {w j f : Nat} (hw : 0 < w) :
    j / w = f ↔ (f * w ≤ j ∧ j < f * w + w) := by
  constructor
  · rintro rfl
    refine ⟨Nat.div_mul_le_self j w, ?_⟩
    have h1 := Nat.div_add_mod j w
    have h2 := Nat.mod_lt j hw
    have h3 : j / w * w = w * (j / w) := Nat.mul_comm _ _
    omega
  · rintro ⟨h1, h2⟩
    exact Nat.div_eq_of_lt_le h1 (by rw [Nat.succ_mul]; omega)

theorem acc2d_get_value_touch (s : accumulator_2d) (hw : s.width = 2 ^ s.shift) (i j : Nat) :
    (s.touch i).get_value j = s.get_value j := by
  have hwpos : 0 < (2 : Nat) ^ s.shift := Nat.pos_pow_of_pos _ (by norm_num)
  simp only [accumulator_2d.touch, accumulator_2d.which_dirty_flag]
  by_cases h1 : s.dirty_flag (i / 2 ^ s.shift) = true
  · rw [if_pos h1]
    simp only [accumulator_2d.get_value, accumulator_2d.which_dirty_flag, hw]
    by_cases h2 : j / 2 ^ s.shift = i / 2 ^ s.shift
    · have hj : s.dirty_flag (j / 2 ^ s.shift) = true := by rw [h2]; exact h1
      have hr : i / 2 ^ s.shift * 2 ^ s.shift ≤ j ∧
          j < i / 2 ^ s.shift * 2 ^ s.shift + 2 ^ s.shift := (div_eq_iff_range hwpos).mp h2
      rw [if_pos h2, if_pos hj, if_pos hr]
      rfl
    · rw [if_neg h2]
      by_cases h3 : s.dirty_flag (j / 2 ^ s.shift) = true
      · rw [if_pos h3, if_pos h3]
      · rw [if_neg h3, if_neg h3]
        rw [if_neg]
        intro hr
        exact h2 ((div_eq_iff_range hwpos).mpr hr)
  · rw [if_neg h1]

theorem acc2d_touch_shift (s : accumulator_2d) (i : Nat) : (s.touch i).shift = s.shift := by
  rw [accumulator_2d.touch]; split <;> rfl

theorem acc2d_touch_width (s : accumulator_2d) (i : Nat) : (s.touch i).width = s.width := by
  rw [accumulator_2d.touch]; split <;> rfl

theorem acc2d_touch_flag (s : accumulator_2d) (i : Nat) :
    (s.touch i).dirty_flag (i / 2 ^ s.shift) = false := by
  rw [accumulator_2d.touch, accumulator_2d.which_dirty_flag]
  split
  · simp
  · next h => simpa using h

theorem acc2d_get_value_set (M : Nat) (s : accumulator_2d) (hw : s.width = 2 ^ s.shift)
    (i j v : Nat) :
    (s.set M i v).get_value j = if j = i then v % M else s.get_value j := by
  rw [accumulator_2d.set]
  by_cases hji : j = i
  · subst hji
    rw [if_pos rfl, accumulator_2d.get_value]
    have hclear : ((s.touch j).store M j v).dirty_flag
        (((s.touch j).store M j v).which_dirty_flag j) = false := by
      show (s.touch j).dirty_flag (j / 2 ^ (s.touch j).shift) = false
      rw [acc2d_touch_shift]
      exact acc2d_touch_flag s j
    rw [hclear]
    simp [accumulator_2d.store]
  · rw [if_neg hji]
    have h1 : ((s.touch i).store M i v).get_value j = (s.touch i).get_value j := by
      rw [accumulator_2d.get_value, accumulator_2d.get_value]
      simp [accumulator_2d.store, accumulator_2d.which_dirty_flag, hji]
    rw [h1, acc2d_get_value_touch s hw i j]

theorem acc2d_set_width (M : Nat) (s : accumulator_2d) (i v : Nat) :
    (s.set M i v).width = s.width := by
  rw [accumulator_2d.set]
  show (s.touch i).width = s.width
  exact acc2d_touch_width s i

theorem acc2d_set_shift (M : Nat) (s : accumulator_2d) (i v : Nat) :
    (s.set M i v).shift = s.shift := by
  rw [accumulator_2d.set]
  show (s.touch i).shift = s.shift
  exact acc2d_touch_shift s i

theorem writeAll2d_get_value (M : Nat) (L : List Nat) (s : accumulator_2d)
    (hw : s.width = 2 ^ s.shift) (j : Nat) :
    (writeAll2d M s L).get_value j = if j ∈ L then j % M else s.get_value j := by
  induction L generalizing s with
  | nil => simp [writeAll2d]
  | cons x xs ih =>
    have hw2 : (s.set M x x).width = 2 ^ (s.set M x x).shift := by
      rw [acc2d_set_width, acc2d_set_shift]; exact hw
    have hstep : writeAll2d M s (x :: xs) = writeAll2d M (s.set M x x) xs := rfl
    rw [hstep, ih (s.set M x x) hw2, acc2d_get_value_set M s hw x j x]
    by_cases hx : j ∈ xs
    · rw [if_pos hx, if_pos (List.mem_cons_of_mem x hx)]
    · rw [if_neg hx]
      by_cases hjx : j = x
      · subst hjx
        rw [if_pos rfl, if_pos (List.mem_cons_self j xs)]
      · rw [if_neg hjx, if_neg (by simp [hjx, hx])]

theorem accsimple_writeAll_get_value (M : Nat) (L : List Nat) (s : accumulator_simple)
    (j : Nat) :
    (writeAllSimple M s L).get_value j = if j ∈ L then j % M else s.get_value j := by
  induction L generalizing s with
  | nil => simp [writeAllSimple]
  | cons x xs ih =>
    have hstep : writeAllSimple M s (x :: xs) = writeAllSimple M (s.set M x x) xs := rfl
    rw [hstep, ih (s.set M x x)]
    by_cases hx : j ∈ xs
    · rw [if_pos hx, if_pos (List.mem_cons_of_mem x hx)]
    · rw [if_neg hx]
      by_cases hjx : j = x
      · subst hjx
        simp [accumulator_simple.set, accumulator_simple.get_value]
      · rw [if_neg (by simp [hjx, hx])]
        simp [accumulator_simple.set, accumulator_simple.get_value, hjx]

theorem accbm_writeAll_get (M : Nat) (L : List Nat) (s : accumulator_block_max) (j : Nat) :
    (writeAllBm M s L).get j = if j ∈ L then j % M else s.get j := by
  induction L generalizing s with
  | nil => simp [writeAllBm]
  | cons x xs ih =>
    have hstep : writeAllBm M s (x :: xs) = writeAllBm M (s.set M x x) xs := rfl
    rw [hstep, ih (s.set M x x)]
    by_cases hx : j ∈ xs
    · rw [if_pos hx, if_pos (List.mem_cons_of_mem x hx)]
    · rw [if_neg hx]
      by_cases hjx : j = x
      · subst hjx
        simp [accumulator_block_max.set, accumulator_block_max.get]
      · rw [if_neg (by simp [hjx, hx])]
        simp [accumulator_block_max.set, accumulator_block_max.get, hjx]

theorem acc2d_rewind_get_value (s : accumulator_2d)
    (hn : s.number_of_accumulators ≤ s.number_of_dirty_flags * 2 ^ s.shift)
    (i : Nat) (hi : i < s.number_of_accumulators) :
    s.rewind.get_value i = 0 := by
  have hwpos : 0 < (2 : Nat) ^ s.shift := Nat.pos_pow_of_pos _ (by norm_num)
  have hflag : i / 2 ^ s.shift < s.number_of_dirty_flags :=
    (Nat.div_lt_iff_lt_mul hwpos).mpr (by omega)
  rw [accumulator_2d.get_value]
  rw [if_pos]
  show (if i / 2 ^ s.shift < s.number_of_dirty_flags then true else
    s.dirty_flag (i / 2 ^ s.shift)) = true
  rw [if_pos hflag]

theorem acc2d_rewind_touch_read (s : accumulator_2d) (hw : s.width = 2 ^ s.shift)
    (hn : s.number_of_accumulators ≤ s.number_of_dirty_flags * 2 ^ s.shift)
    (i : Nat) (hi : i < s.number_of_accumulators) :
    (s.rewind.touch i).accumulator i = 0 := by
  have hwpos : 0 < (2 : Nat) ^ s.shift := Nat.pos_pow_of_pos _ (by norm_num)
  have hflag : i / 2 ^ s.shift < s.number_of_dirty_flags :=
    (Nat.div_lt_iff_lt_mul hwpos).mpr (by omega)
  have hdirty : s.rewind.dirty_flag (s.rewind.which_dirty_flag i) = true := by
    show (if i / 2 ^ s.shift < s.number_of_dirty_flags then true else
      s.dirty_flag (i / 2 ^ s.shift)) = true
    rw [if_pos hflag]
  rw [accumulator_2d.touch, if_pos hdirty]
  show (if s.rewind.which_dirty_flag i * s.width ≤ i ∧
      i < s.rewind.which_dirty_flag i * s.width + s.width then 0 else s.accumulator i) = 0
  rw [if_pos]
  have : s.rewind.which_dirty_flag i = i / 2 ^ s.shift := rfl
  rw [this, hw]
  exact (div_eq_iff_range hwpos).mp rfl

/-- Claim C7: for each of the three accumulator variants, after `rewind()`
every read of an index inside `[0, size())` — through `get_value` (2d,
simple), through the raw reference of `operator[]` before writing (2d,
block-max) — returns 0.  The 2-d variant needs its layout invariants
(`width = 2 ^ shift`, `size ≤ flags * width`), which `init` establishes. -/
theorem claim_C7 (s2 : accumulator_2d) (ss : accumulator_simple) (sb : accumulator_block_max)
    (hw : s2.width = 2 ^ s2.shift)
    (hn : s2.number_of_accumulators ≤ s2.number_of_dirty_flags * 2 ^ s2.shift)
    (i j l : Nat) (hi : i < s2.number_of_accumulators)
    (hj : j < ss.number_of_accumulators) (hl : l < sb.number_of_accumulators) :
    s2.rewind.get_value i = 0
  ∧ (s2.rewind.touch i).accumulator i = 0
  ∧ ss.rewind.get_value j = 0
  ∧ sb.rewind.get l = 0 := by
  refine ⟨acc2d_rewind_get_value s2 hn i hi, acc2d_rewind_touch_read s2 hw hn i hi, ?_, ?_⟩
  · rw [accumulator_simple.rewind, accumulator_simple.get_value]
    show (if j < ss.number_of_accumulators then 0 else ss.accumulator j) = 0
    rw [if_pos hj]
  · rw [accumulator_block_max.rewind, accumulator_block_max.get]
    show (if l < sb.number_of_accumulators then 0 else sb.accumulator l) = 0
    rw [if_pos hl]

def c7s2 : accumulator_2d :=
  { dirty_flag := fun _ => false, accumulator := fun _ => 99, width := 4, shift := 2
    number_of_dirty_flags := 3, number_of_accumulators_allocated := 12
    number_of_accumulators := 10 }

def c7ss : accumulator_simple := { accumulator := fun _ => 99, number_of_accumulators := 10 }

def c7sb : accumulator_block_max :=
  { block_max := fun _ => 99, accumulator := fun _ => 99, shift := 2, width := 4
    number_of_blocks := 3, number_of_accumulators_allocated := 12
    number_of_accumulators := 10 }

/-- Claim C7 witness: a 10-element layout with width 4 and 3 dirty
flags/blocks, read at indices 5, 6 and 7. -/
theorem claim_C7_witness :
    c7s2.rewind.get_value 5 = 0
  ∧ (c7s2.rewind.touch 5).accumulator 5 = 0
  ∧ c7ss.rewind.get_value 6 = 0
  ∧ c7sb.rewind.get 7 = 0 :=
  claim_C7 c7s2 c7ss c7sb (by decide) (by decide) 5 6 7 (by decide) (by decide) (by decide)

/-- Claim C8: for every `n ≤ MAX_DOCUMENTS` and every permutation `L` of
`[0, n)`, setting `a[i] = i` (through `operator[]`) in permutation order
over a rewound array leaves `a[j] = j` for every `j < n`, for all three
accumulator variants — writes to one index never disturb another. -/
theorem claim_C8 (n : Nat) (L : List Nat) (hn : n ≤ MAX_DOCUMENTS)
    (hperm1 : ∀ j, j < n → j ∈ L) (_hperm2 : ∀ x ∈ L, x < n)
    (s2 : accumulator_2d) (hw : s2.width = 2 ^ s2.shift)
    (ss : accumulator_simple) (sb : accumulator_block_max)
    (j : Nat) (hj : j < n) :
    (writeAll2d M64 s2.rewind L).get_value j = j
  ∧ (writeAllSimple M64 ss.rewind L).get_value j = j
  ∧ (writeAllBm M64 sb.rewind L).get j = j := by
  have hjL : j ∈ L := hperm1 j hj
  have hjM : j % M64 = j := Nat.mod_eq_of_lt (by
    have h1 : n ≤ 55000000 := hn
    show j < 18446744073709551616
    omega)
  have hwr : s2.rewind.width = 2 ^ s2.rewind.shift := hw
  refine ⟨?_, ?_, ?_⟩
  · rw [writeAll2d_get_value M64 L s2.rewind hwr j, if_pos hjL, hjM]
  · rw [accsimple_writeAll_get_value M64 L ss.rewind j, if_pos hjL, hjM]
  · rw [accbm_writeAll_get M64 L sb.rewind j, if_pos hjL, hjM]

/-- Claim C8 witness: the permutation `[3,0,4,1,2]` of `[0,5)`, read back at 3. -/
theorem claim_C8_witness :
    (writeAll2d M64 c7s2.rewind [3, 0, 4, 1, 2]).get_value 3 = 3
  ∧ (writeAllSimple M64 c7ss.rewind [3, 0, 4, 1, 2]).get_value 3 = 3
  ∧ (writeAllBm M64 c7sb.rewind [3, 0, 4, 1, 2]).get 3 = 3 :=
  claim_C8 5 [3, 0, 4, 1, 2] (by decide) (by decide) (by decide) c7s2 (by decide) c7ss c7sb 3
    (by decide)

theorem foldr_max_congr (acc acc2 : Nat → Nat) (l : List Nat)
    (h : ∀ x ∈ l, acc2 x = acc x) :
    l.foldr (fun x m => max (acc2 x) m) 0 = l.foldr (fun x m => max (acc x) m) 0 := by
  induction l with
  | nil => rfl
  | cons x xs ih =>
    simp only [List.foldr_cons]
    rw [h x (List.mem_cons_self x xs), ih (fun y hy => h y (List.mem_cons_of_mem x hy))]

theorem foldr_max_zero (acc : Nat → Nat) (l : List Nat) (h : ∀ x ∈ l, acc x = 0) :
    l.foldr (fun x m => max (acc x) m) 0 = 0 := by
  induction l with
  | nil => rfl
  | cons x xs ih =>
    simp only [List.foldr_cons]
    rw [h x (List.mem_cons_self x xs), ih (fun y hy => h y (List.mem_cons_of_mem x hy))]
    omega

theorem foldr_max_update (acc : Nat → Nat) (i v : Nat) (hv : acc i ≤ v) (l : List Nat)
    (hi : i ∈ l) :
    l.foldr (fun x m => max ((if x = i then v else acc x)) m) 0
      = max v (l.foldr (fun x m => max (acc x) m) 0) := by
  induction l with
  | nil => cases hi
  | cons x xs ih =>
    simp only [List.foldr_cons]
    by_cases hx : x = i
    · subst hx
      rw [if_pos rfl]
      by_cases hixs : x ∈ xs
      · rw [ih hixs]
        omega
      · rw [foldr_max_congr acc (fun t => if t = x then v else acc t) xs
          (fun y hy => if_neg (by rintro rfl; exact hixs hy))]
        omega
    · rw [if_neg hx]
      have hixs : i ∈ xs := by
        cases hi with
        | head => exact absurd rfl hx
        | tail _ h => exact h
      rw [ih hixs]
      omega

theorem mem_cells {w b x : Nat} (_hw : 0 < w) :
    x ∈ (List.range w).map (fun j => b * w + j) ↔ (b * w ≤ x ∧ x < b * w + w) := by
  simp only [List.mem_map, List.mem_range]
  constructor
  · rintro ⟨j, hj, rfl⟩
    omega
  · rintro ⟨h1, h2⟩
    exact ⟨x - b * w, by omega, by omega⟩

theorem accbm_add_fields (M : Nat) (s : accumulator_block_max) (i v : Nat) :
    (s.add M i v).width = s.width ∧ (s.add M i v).shift = s.shift ∧
    (s.add M i v).number_of_blocks = s.number_of_blocks ∧
    (s.add M i v).number_of_accumulators = s.number_of_accumulators := by
  rw [accumulator_block_max.add]
  split <;> simp

theorem accbm_add_acc (M : Nat) (s : accumulator_block_max) (i v : Nat) :
    (s.add M i v).accumulator =
      fun t => if t = i then (s.accumulator i + v % M) % M else s.accumulator t := by
  rw [accumulator_block_max.add]
  split <;> rfl

theorem accbm_add_bm_at (M : Nat) (s : accumulator_block_max) (i v b : Nat) :
    (s.add M i v).block_max b =
      if (s.accumulator i + v % M) % M > s.block_max (s.which_block i) then
        (if b = s.which_block i then (s.accumulator i + v % M) % M else s.block_max b)
      else s.block_max b := by
  rw [accumulator_block_max.add]
  split <;> rfl

theorem bmInv_add (M : Nat) (s : accumulator_block_max)
    (hw : s.width = 2 ^ s.shift)
    (hn : s.number_of_accumulators ≤ s.number_of_blocks * s.width)
    (hinv : bmInvariant s) (i v : Nat) (hi : i < s.number_of_accumulators)
    (hov : s.accumulator i + v % M < M) :
    bmInvariant (s.add M i v) := by
  have hwpos : 0 < s.width := by rw [hw]; positivity
  have hbi : i / s.width < s.number_of_blocks := (Nat.div_lt_iff_lt_mul hwpos).mpr (by omega)
  have hbieq : s.which_block i = i / s.width := by
    rw [accumulator_block_max.which_block, hw]
  have ha : (s.accumulator i + v % M) % M = s.accumulator i + v % M :=
    Nat.mod_eq_of_lt hov
  have hfields := accbm_add_fields M s i v
  intro b hb
  rw [hfields.2.2.1] at hb
  rw [List.mem_range] at hb
  rw [maxCells, accbm_add_acc, accbm_add_bm_at, hfields.1, hbieq]
  by_cases hbb : b = i / s.width
  · subst hbb
    have hmem : i ∈ (List.range s.width).map (fun j => i / s.width * s.width + j) :=
      (mem_cells hwpos).mpr ((div_eq_iff_range hwpos).mp rfl)
    rw [foldr_max_update s.accumulator i _ (by omega) _ hmem]
    have hinvb : s.block_max (i / s.width) = maxCells s.accumulator s.width (i / s.width) :=
      hinv _ (List.mem_range.mpr hbi)
    rw [maxCells] at hinvb
    by_cases hgt : (s.accumulator i + v % M) % M > s.block_max (i / s.width)
    · rw [if_pos hgt, if_pos rfl]
      omega
    · rw [if_neg hgt]
      omega
  · have hcong : ∀ x ∈ (List.range s.width).map (fun j => b * s.width + j),
        (if x = i then (s.accumulator i + v % M) % M else s.accumulator x) = s.accumulator x := by
      intro x hx
      have hxr := (mem_cells hwpos).mp hx
      have hxw : x / s.width = b := (div_eq_iff_range hwpos).mpr hxr
      have hxi : x ≠ i := by
        rintro rfl
        exact hbb hxw.symm
      rw [if_neg hxi]
    rw [foldr_max_congr s.accumulator _ _ hcong]
    have hinvb : s.block_max b = maxCells s.accumulator s.width b :=
      hinv _ (List.mem_range.mpr hb)
    rw [maxCells] at hinvb
    by_cases hgt : (s.accumulator i + v % M) % M > s.block_max (i / s.width)
    · rw [if_pos hgt, if_neg hbb]
      exact hinvb
    · rw [if_neg hgt]
      exact hinvb

theorem le_accAlloc (p n : Nat) : n ≤ accAlloc p n := by
  rw [accAlloc, accRows]
  set w := accWidth p n with hw
  have hw1 : 0 < w := by rw [hw, accWidth]; positivity
  rcases Nat.eq_zero_or_pos n with rfl | hn
  · simp
  · have h3 : (n + w - 1) / w = (n - 1) / w + 1 := by
      rw [show n + w - 1 = (n - 1) + w by omega, Nat.add_div_right _ hw1]
    rw [h3]
    have h1 := Nat.div_add_mod (n - 1) w
    have h2 := Nat.mod_lt (n - 1) hw1
    have h4 : w * ((n - 1) / w + 1) = w * ((n - 1) / w) + w := by ring
    omega

theorem accWidth_pow (p n : Nat) : accWidth p n = 2 ^ accShift p n := rfl

theorem accbm_init_ok_elim (N : Nat) (s0 : accumulator_block_max) (n p : Nat)
    (h : exIsOk (accumulator_block_max.init N s0 n p) = true) :
    (exGetD (accumulator_block_max.init N s0 n p) s0).width = accWidth p n
  ∧ (exGetD (accumulator_block_max.init N s0 n p) s0).shift = accShift p n
  ∧ (exGetD (accumulator_block_max.init N s0 n p) s0).number_of_blocks = accRows p n
  ∧ (exGetD (accumulator_block_max.init N s0 n p) s0).number_of_accumulators = n
  ∧ (∀ j, j < accAlloc p n →
      (exGetD (accumulator_block_max.init N s0 n p) s0).accumulator j = 0)
  ∧ (∀ b, b < accRows p n →
      (exGetD (accumulator_block_max.init N s0 n p) s0).block_max b = 0) := by
  by_cases hc : accRows p n > accumulator_block_max.max_blocks N ∨
      accAlloc p n > accumulator_block_max.max_alloc N
  · rw [accumulator_block_max.init, if_pos hc] at h
    exact absurd h (by simp [exIsOk])
  · rw [accumulator_block_max.init, if_neg hc]
    refine ⟨rfl, rfl, rfl, rfl, ?_, ?_⟩
    · intro j hj
      show (if n ≤ j ∧ j < accAlloc p n then 0
        else if j < n then 0 else s0.accumulator j) = 0
      by_cases hjn : j < n
      · rw [if_neg (by omega), if_pos hjn]
      · rw [if_pos ⟨by omega, hj⟩]
    · intro b hb
      show (if b < accRows p n then 0 else s0.block_max b) = 0
      rw [if_pos hb]

theorem bmInv_foldAdds (M : Nat) (ops : List (Nat × Nat)) :
    ∀ (s : accumulator_block_max), s.width = 2 ^ s.shift →
      s.number_of_accumulators ≤ s.number_of_blocks * s.width →
      bmInvariant s → (∀ q ∈ ops, q.1 < s.number_of_accumulators) →
      noOv M s ops = true → bmInvariant (foldAdds M s ops) := by
  induction ops with
  | nil => intro s _ _ hinv _ _; exact hinv
  | cons q rest ih =>
    intro s hw hn hinv hops hov
    rw [noOv, Bool.and_eq_true, Nat.blt_eq] at hov
    have hfields := accbm_add_fields M s q.1 q.2
    have hstep : foldAdds M s (q :: rest) = foldAdds M (s.add M q.1 q.2) rest := rfl
    rw [hstep]
    refine ih (s.add M q.1 q.2) ?_ ?_ ?_ ?_ hov.2
    · rw [hfields.1, hfields.2.1]; exact hw
    · rw [hfields.1, hfields.2.2.1, hfields.2.2.2]; exact hn
    · exact bmInv_add M s hw hn hinv q.1 q.2 (hops q (List.mem_cons_self q rest)) hov.1
    · intro r hr
      rw [hfields.2.2.2]
      exact hops r (List.mem_cons_of_mem q hr)

/-- Claim C9: after `accumulator_block_max::rewind()` on an
`init`-sized array, every sequence of `add(i, v)` calls with `i < size`
in which no addition overflows the `uint16_t` element width preserves
the invariant that every block maximum equals the largest accumulator
value inside its block (so no accumulator ever exceeds its block max),
which is what the block-skipping scan of `query_block_max::sort` relies
on. -/
theorem claim_C9 (n p : Nat) (s0 : accumulator_block_max)
    (h : exIsOk (accumulator_block_max.init MAX_DOCUMENTS s0 n p) = true)
    (ops : List (Nat × Nat)) (hops : ∀ q ∈ ops, q.1 < n)
    (hov : noOv ACC_MOD
      ((exGetD (accumulator_block_max.init MAX_DOCUMENTS s0 n p) s0).rewind) ops = true) :
    bmInvariant (foldAdds ACC_MOD
      ((exGetD (accumulator_block_max.init MAX_DOCUMENTS s0 n p) s0).rewind) ops) := by
  obtain ⟨hW, hS, hB, hN, hzero, hbz⟩ := accbm_init_ok_elim MAX_DOCUMENTS s0 n p h
  set s := exGetD (accumulator_block_max.init MAX_DOCUMENTS s0 n p) s0 with hs
  have hrw : s.rewind.width = s.width := rfl
  have hrs : s.rewind.shift = s.shift := rfl
  have hrb : s.rewind.number_of_blocks = s.number_of_blocks := rfl
  have hrn : s.rewind.number_of_accumulators = s.number_of_accumulators := rfl
  have hwpos : 0 < s.width := by
    rw [hW, accWidth]; positivity
  refine bmInv_foldAdds ACC_MOD ops s.rewind ?_ ?_ ?_ ?_ hov
  · rw [hrw, hrs, hW, hS]; rfl
  · rw [hrn, hrb, hrw, hN, hB, hW]
    have h1 := le_accAlloc p n
    rw [accAlloc] at h1
    have h2 : accRows p n * accWidth p n = accWidth p n * accRows p n := Nat.mul_comm _ _
    omega
  · intro b hb
    rw [List.mem_range, hrb, hB] at hb
    show s.rewind.block_max b = _
    have hbm : s.rewind.block_max b = 0 := by
      show (if b < s.number_of_blocks then 0 else s.block_max b) = 0
      rw [if_pos (by rw [hB]; exact hb)]
    rw [hbm, maxCells]
    symm
    apply foldr_max_zero
    intro x hx
    rw [hrw] at hx
    have hxr := (mem_cells hwpos).mp hx
    have hxa : x < accAlloc p n := by
      have hble : (b + 1) * s.width ≤ accRows p n * s.width :=
        Nat.mul_le_mul_right _ hb
      have heq : (b + 1) * s.width = b * s.width + s.width := by ring
      have hcm : accWidth p n * accRows p n = accRows p n * accWidth p n := Nat.mul_comm _ _
      rw [hW] at hxr hble heq
      rw [accAlloc]
      omega
    show (if x < s.number_of_accumulators then 0 else s.accumulator x) = 0
    by_cases hxn : x < s.number_of_accumulators
    · rw [if_pos hxn]
    · rw [if_neg hxn]
      exact hzero x hxa
  · intro q hq
    rw [hrn, hN]
    exact hops q hq

/-- Claim C9 witness: an 8-document array with block width 2, after the
adds (3,5), (3,2), (0,1), (7,60000). -/
theorem claim_C9_witness :
    bmInvariant (foldAdds ACC_MOD
      ((exGetD (accumulator_block_max.init MAX_DOCUMENTS junkbm 8 1) junkbm).rewind)
      [(3, 5), (3, 2), (0, 1), (7, 60000)]) :=
  claim_C9 8 1 junkbm (by decide) [(3, 5), (3, 2), (0, 1), (7, 60000)] (by decide) (by decide)

theorem add_rsv_done_iff (s : query_heap) (d v : Nat) :
    (s.add_rsv d v).2 = true ↔
      (s.top_k_lower_bound ≤ ((s.accumulators.touch d).accumulator d + v % ACC_MOD) % ACC_MOD
       ∧ s.needed_for_top_k = 1
       ∧ ((s.accumulators.touch d).accumulator d + v % ACC_MOD) % ACC_MOD
           < s.top_k_lower_bound + v % ACC_MOD
       ∧ s.top_k_lower_bound ≠ 1) := by
  simp only [query_heap.add_rsv]
  split_ifs <;>
    first
      | exact iff_of_true rfl ⟨by omega, by omega, by omega, by assumption⟩
      | exact iff_of_false (by simp) (by rintro ⟨hc1, hc2, hc3, hc4⟩; omega)

theorem add_rsv_done_needed (s : query_heap) (d v : Nat) (h : (s.add_rsv d v).2 = true) :
    (s.add_rsv d v).1.needed_for_top_k = 0 := by
  obtain ⟨hc1, hc2, hc3, hc4⟩ := (add_rsv_done_iff s d v).mp h
  simp only [query_heap.add_rsv]
  split_ifs <;> first | rfl | omega | (exact absurd rfl (by omega)) | simp_all

theorem processPostings_done (s : query_heap) (d : Nat) (rest : List Nat)
    (h : (s.add_rsv d s.impact).2 = true) :
    query_heap.processPostings s (d :: rest) = (s.add_rsv d s.impact).1 := by
  rw [query_heap.processPostings, if_pos h]

/-- Claim C3: the early-exit signal (`Done`) is raised only from
`add_rsv`, only at the moment the heap first fills
(`needed_for_top_k` goes from 1 to 0) and only when the installed
`top_k_lower_bound` is not 1; the posting loop of `decode_with_writer`
catches it, abandons the remainder of the segment and returns the state
normally (in the model the signal is the boolean component, produced
nowhere but `add_rsv`, and `processPostings` is total). -/
theorem claim_C3 (s : query_heap) (d v : Nat) (rest : List Nat) :
    ((s.add_rsv d v).2 = true →
      s.needed_for_top_k = 1 ∧ (s.add_rsv d v).1.needed_for_top_k = 0
        ∧ s.top_k_lower_bound ≠ 1)
  ∧ ((s.add_rsv d s.impact).2 = true →
      query_heap.processPostings s (d :: rest) = (s.add_rsv d s.impact).1) := by
  constructor
  · intro h
    obtain ⟨hc1, hc2, hc3, hc4⟩ := (add_rsv_done_iff s d v).mp h
    exact ⟨hc2, add_rsv_done_needed s d v h, hc4⟩
  · intro h
    exact processPostings_done s d rest h

/-- Claim C3 witness: one result short of filling a `k = 1` heap under
oracle bound 3, at document 2 with impact 3; document 5 is abandoned. -/
theorem claim_C3_witness :
    (c3s.add_rsv 2 3).2 = true
  ∧ (c3s.needed_for_top_k = 1 ∧ (c3s.add_rsv 2 3).1.needed_for_top_k = 0
      ∧ c3s.top_k_lower_bound ≠ 1)
  ∧ query_heap.processPostings c3s [2, 5] = (c3s.add_rsv 2 c3s.impact).1 :=
  ⟨by decide, (claim_C3 c3s 2 3 [5]).1 (by decide), (claim_C3 c3s 2 3 [5]).2 (by decide)⟩

theorem mem_isortInsert (le : Nat → Nat → Bool) (x y : Nat) (l : List Nat) :
    x ∈ isortInsert le y l ↔ x = y ∨ x ∈ l := by
  induction l with
  | nil => simp [isortInsert]
  | cons z zs ih =>
    rw [isortInsert]
    split_ifs with h
    · simp only [List.mem_cons]
    · simp only [List.mem_cons, ih]
      tauto

theorem length_isortInsert (le : Nat → Nat → Bool) (x : Nat) (l : List Nat) :
    (isortInsert le x l).length = l.length + 1 := by
  induction l with
  | nil => rfl
  | cons z zs ih =>
    rw [isortInsert]
    split_ifs with h
    · rfl
    · simp only [List.length_cons, ih]

theorem length_isortBy (le : Nat → Nat → Bool) (l : List Nat) :
    (isortBy le l).length = l.length := by
  induction l with
  | nil => rfl
  | cons x xs ih =>
    rw [isortBy, length_isortInsert, ih, List.length_cons]

theorem mem_isortBy (le : Nat → Nat → Bool) (x : Nat) (l : List Nat) :
    x ∈ isortBy le l ↔ x ∈ l := by
  induction l with
  | nil => simp [isortBy]
  | cons z zs ih =>
    rw [isortBy, mem_isortInsert]
    simp only [List.mem_cons, ih]

theorem pairwise_isortInsert (le : Nat → Nat → Bool)
    (htot : ∀ a b, le a b = true ∨ le b a = true)
    (htrans : ∀ a b c, le a b = true → le b c = true → le a c = true)
    (x : Nat) (l : List Nat) (h : l.Pairwise (fun a b => le a b = true)) :
    (isortInsert le x l).Pairwise (fun a b => le a b = true) := by
  induction l with
  | nil => simp [isortInsert]
  | cons y ys ih =>
    rw [isortInsert]
    obtain ⟨hy, hys⟩ := List.pairwise_cons.mp h
    split_ifs with hxy
    · rw [List.pairwise_cons]
      refine ⟨?_, h⟩
      intro b hb
      rcases List.mem_cons.mp hb with rfl | hbys
      · exact hxy
      · exact htrans x y b hxy (hy b hbys)
    · rw [List.pairwise_cons]
      refine ⟨?_, ih hys⟩
      intro b hb
      rcases (mem_isortInsert le b x ys).mp hb with hbx | hbys
      · subst hbx
        rcases htot b y with hxy2 | hyx
        · exact absurd hxy2 hxy
        · exact hyx
      · exact hy b hbys

theorem pairwise_isortBy (le : Nat → Nat → Bool)
    (htot : ∀ a b, le a b = true ∨ le b a = true)
    (htrans : ∀ a b c, le a b = true → le b c = true → le a c = true)
    (l : List Nat) :
    (isortBy le l).Pairwise (fun a b => le a b = true) := by
  induction l with
  | nil => simp [isortBy]
  | cons x xs ih => exact pairwise_isortInsert le htot htrans x (isortBy le xs) ih

theorem ptrLE_iff (acc : Nat → Nat) (a b : Nat) :
    ptrLE acc a b = true ↔ (acc a < acc b ∨ (acc a = acc b ∧ a ≤ b)) := by
  simp [ptrLE, Nat.blt_eq, Nat.ble_eq, Bool.or_eq_true, Bool.and_eq_true, beq_iff_eq]

theorem ptrLE_total (acc : Nat → Nat) (a b : Nat) :
    ptrLE acc a b = true ∨ ptrLE acc b a = true := by
  rw [ptrLE_iff, ptrLE_iff]
  omega

theorem ptrLE_trans (acc : Nat → Nat) (a b c : Nat) (h1 : ptrLE acc a b = true)
    (h2 : ptrLE acc b c = true) : ptrLE acc a c = true := by
  rw [ptrLE_iff] at h1 h2 ⊢
  omega

theorem enumerate_pairwise (s : query_heap) :
    s.enumerate.Pairwise
      (fun u v : Nat × Nat => ptrLE s.accumulators.accumulator v.1 u.1 = true) := by
  rw [query_heap.enumerate]
  apply List.Pairwise.map
    (R := fun a b : Nat => ptrLE s.accumulators.accumulator b a = true)
  · intro a b hab
    exact hab
  · rw [List.pairwise_reverse]
    exact pairwise_isortBy _ (ptrLE_total _) (ptrLE_trans _) s.filled

/-- Claim C1 (amended): on equal final rsv the LARGER document id ranks
higher.  For any heap-query state whose filled entries point at
initialised (non-dirty) pages — which holds for every state produced by
`add_rsv` — any two enumerated results with equal rsv and different
document ids appear with the larger id first. -/
theorem claim_C1 (s : query_heap) (p q : Nat)
    (hWF : ∀ i ∈ s.filled,
      s.accumulators.dirty_flag (s.accumulators.which_dirty_flag i) = false)
    (hpq : p < q) (hq : q < s.enumerate.length)
    (hrsv : (s.enumerate.getD p (0, 0)).2 = (s.enumerate.getD q (0, 0)).2)
    (hne : (s.enumerate.getD p (0, 0)).1 ≠ (s.enumerate.getD q (0, 0)).1) :
    (s.enumerate.getD q (0, 0)).1 < (s.enumerate.getD p (0, 0)).1 := by
  have hp : p < s.enumerate.length := Nat.lt_trans hpq hq
  rw [List.getD_eq_getElem _ _ hp, List.getD_eq_getElem _ _ hq] at hrsv hne ⊢
  have hrel := List.pairwise_iff_getElem.mp (enumerate_pairwise s) p q hp hq hpq
  have hmemf : ∀ r (hr : r < s.enumerate.length),
      ∃ i, i ∈ s.filled ∧ s.enumerate[r] = (i, s.accumulators.get_value i) := by
    intro r hr
    have hmem : s.enumerate[r] ∈ s.enumerate := List.getElem_mem hr
    have hmem2 : s.enumerate[r] ∈ List.map (fun i => (i, s.accumulators.get_value i))
        (isortBy (ptrLE s.accumulators.accumulator) s.filled).reverse := hmem
    obtain ⟨i, hi, heq⟩ := List.mem_map.mp hmem2
    rw [List.mem_reverse, mem_isortBy] at hi
    exact ⟨i, hi, heq.symm⟩
  obtain ⟨ip, hipf, hip⟩ := hmemf p hp
  obtain ⟨iq, hiqf, hiq⟩ := hmemf q hq
  have hrsv2 : s.accumulators.get_value ip = s.accumulators.get_value iq := by
    have h2 := hrsv
    rw [hip, hiq] at h2
    exact h2
  have hne2 : ip ≠ iq := by
    have h2 := hne
    rw [hip, hiq] at h2
    exact h2
  have hrel2 : ptrLE s.accumulators.accumulator iq ip = true := by
    have h2 := hrel
    rw [hip, hiq] at h2
    exact h2
  have hipraw : s.accumulators.get_value ip = s.accumulators.accumulator ip := by
    rw [accumulator_2d.get_value, hWF _ hipf]
    rfl
  have hiqraw : s.accumulators.get_value iq = s.accumulators.accumulator iq := by
    rw [accumulator_2d.get_value, hWF _ hiqf]
    rfl
  rw [ptrLE_iff] at hrel2
  rw [hip, hiq]
  show iq < ip
  omega

/-- Claim C1 witness: a full `k = 2` heap over documents 2 and 7, both
with rsv 5; document 7 is enumerated first. -/
theorem claim_C1_witness :
    (c1state.enumerate.getD 1 (0, 0)).1 < (c1state.enumerate.getD 0 (0, 0)).1 :=
  claim_C1 c1state 0 1 (by decide) (by decide) (by decide) (by decide) (by decide)

theorem minByPtr_mem (acc : Nat → Nat) (xs : List Nat) :
    ∀ b, minByPtr acc b xs = b ∨ minByPtr acc b xs ∈ xs := by
  induction xs with
  | nil => intro b; left; rfl
  | cons x xs ih =>
    intro b
    rw [minByPtr]
    rcases ih (if ptrLT acc x b then x else b) with h | h
    · rw [h]
      split_ifs with hc
      · right; exact List.mem_cons_self x xs
      · left; rfl
    · right; exact List.mem_cons_of_mem x h

theorem reMin_length (acc : Nat → Nat) (l : List Nat) : (reMin acc l).length = l.length := by
  cases l with
  | nil => rfl
  | cons x xs =>
    rw [reMin]
    have hmem : minByPtr acc x xs ∈ x :: xs := by
      rcases minByPtr_mem acc xs x with h | h
      · rw [h]; exact List.mem_cons_self x xs
      · exact List.mem_cons_of_mem x h
    simp only [List.length_cons, List.length_erase_of_mem hmem]
    have : 0 < (x :: xs).length := by simp
    simp only [List.length_cons] at this ⊢
    omega

theorem heapPushBack_length (acc : Nat → Nat) (l : List Nat) (r : Nat) :
    (heapPushBack acc l r).length = l.length := by
  cases l with
  | nil => rfl
  | cons root rest =>
    rw [heapPushBack]
    split_ifs with h
    · rw [reMin_length]
      simp
    · rfl

theorem add_rsv_inv (s : query_heap) (d v : Nat)
    (h : s.filled.length + s.needed_for_top_k = s.top_k) :
    (s.add_rsv d v).1.filled.length + (s.add_rsv d v).1.needed_for_top_k
        = (s.add_rsv d v).1.top_k
    ∧ (s.add_rsv d v).1.top_k = s.top_k := by
  simp only [query_heap.add_rsv]
  split_ifs <;>
    simp_all [reMin_length, heapPushBack_length, List.length_cons] <;> omega

theorem processPostings_inv (docs : List Nat) :
    ∀ (s : query_heap), s.filled.length + s.needed_for_top_k = s.top_k →
      (query_heap.processPostings s docs).filled.length
          + (query_heap.processPostings s docs).needed_for_top_k
        = (query_heap.processPostings s docs).top_k
      ∧ (query_heap.processPostings s docs).top_k = s.top_k := by
  induction docs with
  | nil => intro s h; exact ⟨h, rfl⟩
  | cons d rest ih =>
    intro s h
    rw [query_heap.processPostings]
    obtain ⟨h1, h2⟩ := add_rsv_inv s d s.impact h
    split_ifs with hdone
    · exact ⟨h1, h2⟩
    · obtain ⟨g1, g2⟩ := ih (s.add_rsv d s.impact).1 h1
      exact ⟨g1, g2.trans h2⟩

theorem decode_and_process_inv (s : query_heap) (impact : Nat) (deltas : List Nat)
    (h : s.filled.length + s.needed_for_top_k = s.top_k) :
    (s.decode_and_process impact deltas).filled.length
        + (s.decode_and_process impact deltas).needed_for_top_k
      = (s.decode_and_process impact deltas).top_k
    ∧ (s.decode_and_process impact deltas).top_k = s.top_k := by
  rw [query_heap.decode_and_process]
  exact processPostings_inv (d1cumsum 0 deltas) { s with impact := impact } h

theorem runSegments_inv (segs : List (Nat × List Nat)) :
    ∀ (s : query_heap), s.filled.length + s.needed_for_top_k = s.top_k →
      (query_heap.runSegments s segs).filled.length
          + (query_heap.runSegments s segs).needed_for_top_k
        = (query_heap.runSegments s segs).top_k
      ∧ (query_heap.runSegments s segs).top_k = s.top_k := by
  induction segs with
  | nil => intro s h; exact ⟨h, rfl⟩
  | cons seg rest ih =>
    intro s h
    rw [query_heap.runSegments]
    obtain ⟨h1, h2⟩ := decode_and_process_inv s seg.1 seg.2 h
    obtain ⟨g1, g2⟩ := ih (s.decode_and_process seg.1 seg.2) h1
    exact ⟨g1, g2.trans h2⟩

theorem enumerate_length (s : query_heap) : s.enumerate.length = s.filled.length := by
  rw [query_heap.enumerate, List.length_map, List.length_reverse, length_isortBy]

theorem qh_init_top_k (s0 : query_heap) (D k w : Nat)
    (h : exIsOk (query_heap.init s0 D k w) = true) :
    (exGetD (query_heap.init s0 D k w) s0).top_k = k := by
  simp only [query_heap.init] at h ⊢
  cases hacc : accumulator_2d.init MAX_DOCUMENTS s0.accumulators D w with
  | error e =>
    rw [hacc] at h
    exact absurd h (by simp [exIsOk])
  | ok acc => rfl

set_option maxRecDepth 100000 in
/-- Claim C4, counterexample: with `D = 10`, `k = 1` and one segment of
impact 3 on documents 2 and 5 (both finish with rsv 3, so the k-th
largest achievable final score is 3), the oracle run
(`top_k_lower_bound = 3`) early-exits at document 2 and enumerates
`[(2,3)]`, while the `lower_bound = 1` run enumerates `[(5,3)]` — the
two enumerations differ. -/
theorem claim_C4_counterexample :
    oracleRun.enumerate = [(2, 3)]
  ∧ fullRun.enumerate = [(5, 3)]
  ∧ oracleRun.enumerate ≠ fullRun.enumerate := by decide

/-- Claim C4 (amended): the oracle run is not in general identical to
the `lower_bound = 1` run; what holds is that whenever the run finishes
with the heap full (`needed_for_top_k = 0`, in particular whenever the
early exit fired), the enumeration contains exactly `top_k` results. -/
theorem claim_C4 (s0 : query_heap) (D k w lb : Nat) (segs : List (Nat × List Nat))
    (hok : exIsOk (query_heap.init s0 D k w) = true)
    (hdone : (query_heap.runSegments
        (query_heap.rewind (exGetD (query_heap.init s0 D k w) s0) lb)
        segs).needed_for_top_k = 0) :
    (query_heap.runSegments
        (query_heap.rewind (exGetD (query_heap.init s0 D k w) s0) lb)
        segs).enumerate.length = k := by
  set base := query_heap.rewind (exGetD (query_heap.init s0 D k w) s0) lb with hbase
  have hbinv : base.filled.length + base.needed_for_top_k = base.top_k := by
    rw [hbase]
    show (0 : Nat) + (exGetD (query_heap.init s0 D k w) s0).top_k
      = (exGetD (query_heap.init s0 D k w) s0).top_k
    omega
  have htk : base.top_k = k := qh_init_top_k s0 D k w hok
  obtain ⟨g1, g2⟩ := runSegments_inv segs base hbinv
  rw [enumerate_length]
  omega

/-- Claim C4 witness: the oracle run of the counterexample input fires
the early exit and still enumerates exactly `k = 1` result. -/
theorem claim_C4_witness :
    (query_heap.runSegments
        (query_heap.rewind (exGetD (query_heap.init junkHeap 10 1 7) junkHeap) 3)
        [(3, [2, 3])]).enumerate.length = 1 :=
  claim_C4 junkHeap 10 1 7 3 [(3, [2, 3])] (by decide) (by decide)

end JASS
